import Mathlib

/-!
Verification of the pidfile locking crate (src/lib.rs, src/file_posix.rs,
src/ffi_darwin.rs) via a shallow embedding.

Conventions of the embedding:
  - errno values and fcntl constants are the ones of the darwin target,
    matching src/ffi_darwin.rs and the darwin libc;
  - one raw syscall invocation is a SysRes: either a non-negative return
    value or an errno; the retry loops of the check and nix_check macros
    consume a finite list of such results (the list models the successive
    outcomes the OS hands to the repeated invocation);
  - file contents are lists of characters standing for bytes;
  - the advisory-lock table of the host OS is not code of this repository.
    It is modelled from the spec: at most one holder per path, and a
    non-blocking set-lock request while another holder is alive is denied
    with a busy error while a request on a free path is granted.
-/

namespace Pidfile

/-- errno EINTR on the darwin target. -/
def EINTR : Nat := 4

/-- errno ENOENT on the darwin target. -/
def ENOENT : Nat := 2

/-- errno EACCES on the darwin target. -/
def EACCES : Nat := 13

/-- errno EAGAIN on the darwin target. -/
def EAGAIN : Nat := 35

/-- Constant from src/ffi_darwin.rs. -/
def F_UNLCK : Int := 2

/-- Constant from src/ffi_darwin.rs. -/
def F_WRLCK : Int := 3

/-- Constant from src/ffi_darwin.rs. -/
def F_GETLK : Int := 7

/-- Constant from src/ffi_darwin.rs: the non-blocking set-lock command. -/
def F_SETLK : Int := 8

/-- SEEK_SET from libc. -/
def SEEK_SET : Int := 0

/-- The flock record of src/ffi_darwin.rs (field for field). -/
structure flock where
  l_start : Int
  l_len : Int
  l_pid : Int
  l_type : Int
  l_whence : Int
  l_sysid : Int
deriving Repr, DecidableEq

/-- mem::zeroed for flock. -/
def flock.zeroed : flock := ⟨0, 0, 0, 0, 0, 0⟩

/-- The lock request File::lock builds: a zeroed flock, then
l_type set to F_WRLCK and l_whence to SEEK_SET (src/file_posix.rs,
File::lock). l_start = 0 and l_len = 0 request the whole file. -/
def lockFlockReq : flock :=
  { flock.zeroed with l_type := F_WRLCK, l_whence := SEEK_SET }

/-- The fcntl command File::lock issues (src/file_posix.rs: F_SETLK). -/
def lockCmd : Int := F_SETLK

/-- The fcntl command File::check issues (src/file_posix.rs: F_GETLK). -/
def checkCmd : Int := F_GETLK

/-- Outcome of one raw syscall invocation: a non-negative return value,
or a negative return with the given errno. -/
inductive SysRes where
  | ok (v : Nat)
  | err (e : Nat)
deriving Repr, DecidableEq

/-- Did this invocation fail with EINTR? -/
def SysRes.isEintr : SysRes → Bool
  | .err e => e == EINTR
  | .ok _ => false

/-- The check macro of src/file_posix.rs: repeat the syscall while it
fails with EINTR; return the first non-negative result, or translate the
first other errno into an error. The empty list (the OS never stops
returning EINTR) is marked by the error EINTR, which the theorems
exclude by hypothesis. -/
def checkLoop : List SysRes → Except Nat Nat
  | [] => .error EINTR
  | .ok v :: _ => .ok v
  | .err e :: rest => if e = EINTR then checkLoop rest else .error e

/-- Did this nix call fail with EINTR? -/
def nixIsEintr {α : Type} : Except Nat α → Bool
  | .error e => e == EINTR
  | .ok _ => false

/-- The nix_check macro of src/file_posix.rs: repeat the nix call while
it fails with EINTR, then hand the first non-EINTR result through. -/
def nixCheckLoop {α : Type} : List (Except Nat α) → Except Nat α
  | [] => .error EINTR
  | .ok v :: _ => .ok v
  | .error e :: rest => if e = EINTR then nixCheckLoop rest else .error e

/-- First result of the list that is not an EINTR failure. -/
def firstNonEintr : List SysRes → Option SysRes
  | [] => none
  | r :: rest => if r.isEintr then firstNonEintr rest else some r

/-- First nix result of the list that is not an EINTR failure. -/
def nixFirstNonEintr {α : Type} : List (Except Nat α) → Option (Except Nat α)
  | [] => none
  | r :: rest => if nixIsEintr r then nixFirstNonEintr rest else some r

/-- How the check macro hands a single non-EINTR raw result through. -/
def handleRes : SysRes → Except Nat Nat
  | .ok v => .ok v
  | .err e => .error e

/-- The setlk wrapper of src/file_posix.rs: forward the raw
fcntl(F_SETLK) result, except that a failure with EACCES or EAGAIN is
turned into the return value 1. -/
def setlk (raw : SysRes) : SysRes :=
  match raw with
  | .ok v => .ok v
  | .err e => if e = EACCES ∨ e = EAGAIN then .ok 1 else .err e

/-- File::lock of src/file_posix.rs at the syscall level: run setlk
under the check macro and report whether the returned value is 0.
The list holds the raw fcntl outcomes of the successive attempts. -/
def lockPosix (raws : List SysRes) : Except Nat Bool :=
  match checkLoop (raws.map setlk) with
  | .ok v => .ok (decide (v = 0))
  | .error e => .error e

/-- True unless the raw result is a success with a nonzero value
(fcntl with F_SETLK returns 0 on success, so a well-formed raw outcome
list only holds ok 0, never ok of a positive value). -/
def okImpliesZero : SysRes → Bool
  | .ok v => v == 0
  | .err _ => true

/-- What File::lock must return given the first effective raw fcntl
outcome: granted gives true, a busy failure (EACCES or EAGAIN) gives
false, any other failure surfaces its errno. -/
def lockOutcomeOf : SysRes → Except Nat Bool
  | .ok _ => .ok true
  | .err e => if e = EACCES ∨ e = EAGAIN then .ok false else .error e

/-- The newline byte the pidfile format appends. -/
def newline : Char := Char.ofNat 10

/-- Decimal digit as a character. -/
def digitChar (n : Nat) : Char := Char.ofNat (48 + n)

/-- Decimal digits, most significant first, with an explicit recursion
fuel; every fuel above the number yields the digits of the number. -/
def natDigitsAux (fuel : Nat) (n : Nat) : List Char :=
  match fuel with
  | 0 => []
  | fuel + 1 =>
    if n < 10 then [digitChar n]
    else natDigitsAux fuel (n / 10) ++ [digitChar (n % 10)]

/-- Decimal digits of a natural number, most significant first, as the
Rust Display formatting of an unsigned value produces them. -/
def natDigits (n : Nat) : List Char := natDigitsAux (n + 1) n

/-- Rendering of a pid the way write! with the Display format renders a
signed integer: a minus sign for negative values, then the decimal
digits of the absolute value. -/
def renderPid (p : Int) : List Char :=
  if p < 0 then '-' :: natDigits p.natAbs else natDigits p.natAbs

/-- The full line File::write persists: the decimal pid then a newline. -/
def pidLine (p : Int) : List Char := renderPid p ++ [newline]

/-- Size of the stack buffer of File::write (src/file_posix.rs). -/
def BUF_LEN : Nat := 20

/-- The Cursor step of File::write: format the pid and the newline into
a zeroed 20-byte buffer. Returns the buffer and the cursor position
(the payload length), or none when the text does not fit, in which case
the write! call of the Rust code fails and File::write returns that
formatting error. -/
def formatPid (p : Int) : Option (List Char × Nat) :=
  let s := pidLine p
  if s.length ≤ BUF_LEN then
    some (s ++ List.replicate (BUF_LEN - s.length) (Char.ofNat 0), s.length)
  else none

/-- The write loop of File::write: while pos < len, issue a write of the
remaining bytes and advance pos by the returned count. Each schedule
entry is the post-retry outcome of one libc write call: ok n means the
OS transferred min n (len - pos) bytes (a write never transfers more
than requested), error e means the call failed with errno e and the
loop returns that error. The accumulated file content travels along.
An exhausted schedule while pos < len marks divergence (none). -/
def writeLoop (buf : List Char) (len : Nat) :
    List (Except Nat Nat) → List Char → Nat →
      Option (Except Nat Unit × List Char)
  | [], content, pos =>
      if len ≤ pos then some (.ok (), content) else none
  | s :: rest, content, pos =>
      if len ≤ pos then some (.ok (), content)
      else
        match s with
        | .error e => some (.error e, content)
        | .ok n =>
            writeLoop buf len rest
              (content ++ (buf.drop pos).take (min n (len - pos)))
              (pos + min n (len - pos))

/-- Schedule entries that always transfer at least one byte. -/
def isPosOk : Except Nat Nat → Bool
  | .ok n => 1 ≤ n
  | .error _ => false

/-- The identity snapshot the stat calls return: this embedding keeps
the two fields Lock::ensure_current could consult. -/
structure FileStat where
  st_dev : Nat
  st_ino : Nat
deriving Repr, DecidableEq

/-- Lock::ensure_current of src/lib.rs as a function of the outcomes of
its three effects: the fstat of the still-open descriptor, the stat of
the path, and the best-effort Lock::read_pid of the path (none when
nothing readable parses there). Following the code: an fstat error
returns the read pid; a path stat error returns none; otherwise the
st_ino fields are compared, equality is success and inequality returns
the read pid. -/
def ensureCurrent (fstatRes : Except Unit FileStat)
    (pathStatRes : Except Unit FileStat) (readPidRes : Option Nat) :
    Except (Option Nat) Unit :=
  match fstatRes with
  | .error _ => .error readPidRes
  | .ok current_stat =>
    match pathStatRes with
    | .error _ => .error none
    | .ok path_stat =>
      if current_stat.st_ino = path_stat.st_ino then .ok ()
      else .error readPidRes

/-- Reinterpretation of a signed value as u32, as the Rust cast
self.pid as u32 performs. -/
def intAsU32 (p : Int) : Nat := (p % (2 ^ 32)).toNat

/-- A regular file of the modelled filesystem. -/
structure FsFile where
  ino : Nat
  mode : Nat
  content : List Char
deriving Repr, DecidableEq

/-- Paths are compared only for equality; the embedding keeps them as
strings. -/
abbrev FsPath := String

/-- Modelled from the spec: the visible state of the host OS. files maps
each path to the regular file residing there; lockHolder records, per
path, the pid of the single descriptor currently holding the exclusive
advisory lock (the spec: at most one descriptor across the entire host
may hold the exclusive lock on a given path at a time). nextIno feeds
fresh inode numbers to created files. -/
structure OsState where
  files : FsPath → Option FsFile
  lockHolder : FsPath → Option Int
  nextIno : Nat

/-- Failure oracles of the environment: each field injects the outcome
of the corresponding fallible step of a run (none means the step
succeeds); writeSched is the partial-write schedule of the write loop. -/
structure Env where
  openErr : Option Nat
  lockErr : Option Nat
  truncErr : Option Nat
  checkErr : Option Nat
  writeSched : List (Except Nat Nat)

/-- The Request value of src/lib.rs. -/
structure Request where
  pid : Int
  path : FsPath
  perm : Nat
deriving Repr, DecidableEq

/-- The public constructor pidfile::at of src/lib.rs (at is a Lean
keyword, hence the name): captures the pid once and fixes the
permission mode 0o644. -/
def Request.atPath (pid : Int) (path : FsPath) : Request :=
  { pid := pid, path := path, perm := 0o644 }

/-- The ways a caller of the public interface can obtain a Request: the
crate exposes exactly one constructor, pidfile::at; the three fields of
Request are private and no method of the crate assigns perm. -/
inductive PublicRequest : Request → Prop
  | mk_at (pid : Int) (path : FsPath) : PublicRequest (Request.atPath pid path)

/-- The Pidfile value of src/lib.rs. -/
structure PidfileVal where
  pid : Nat
deriving Repr, DecidableEq

/-- The Lock value of src/lib.rs (the File handle is represented by the
path the run recorded; its identity lives in the OsState). -/
structure Lock where
  pidfile : PidfileVal
  path : FsPath
deriving Repr, DecidableEq

/-- An io::Error as the crate can produce it: an OS errno, or the
formatting failure of the write! into the fixed buffer (an io::Error
without errno). -/
inductive IoError where
  | os (errno : Nat)
  | fmt
deriving Repr, DecidableEq

/-- The LockError of src/lib.rs: a conflict flag and an optional
io::Error. -/
structure LockError where
  conflict : Bool
  ioErr : Option IoError
deriving Repr, DecidableEq

/-- LockError::conflict of src/lib.rs. -/
def LockError.mkConflict : LockError := { conflict := true, ioErr := none }

/-- LockError::io_error of src/lib.rs. -/
def LockError.mkIoError (e : IoError) : LockError :=
  { conflict := false, ioErr := some e }

/-- File::open with create and write set (the acquire path): an oracle
failure aborts with that errno; otherwise the file at the path is kept,
or created empty with the requested mode and a fresh inode when absent
(O_CREAT). -/
def openCreate (os : OsState) (req : Request) (env : Env) :
    Except Nat OsState :=
  match env.openErr with
  | some e => .error e
  | none =>
    match os.files req.path with
    | some _ => .ok os
    | none =>
        .ok { os with
          files := fun p =>
            if p = req.path then some ⟨os.nextIno, req.perm, []⟩
            else os.files p,
          nextIno := os.nextIno + 1 }

/-- Replace the content of the file at the path, when one is there. -/
def setContent (os : OsState) (path : FsPath) (c : List Char) : OsState :=
  { os with
    files := fun p =>
      if p = path then (os.files p).map (fun f => { f with content := c })
      else os.files p }

/-- Request::lock of src/lib.rs run against the modelled OS: open with
create and write, attempt the non-blocking exclusive lock (modelled from
the spec: denied with a conflict exactly when some holder is alive on
the path, granted and recorded otherwise), then truncate and write the
pid line. Every io failure short-circuits as LockError::io_error and a
denied lock as LockError::conflict. none marks a diverging write loop. -/
def Request.lockRun (req : Request) (os : OsState) (env : Env) :
    Option (Except LockError Lock × OsState) :=
  match openCreate os req env with
  | .error e => some (.error (LockError.mkIoError (.os e)), os)
  | .ok os1 =>
    match env.lockErr with
    | some e => some (.error (LockError.mkIoError (.os e)), os1)
    | none =>
      match os1.lockHolder req.path with
      | some _ => some (.error LockError.mkConflict, os1)
      | none =>
        let os2 := { os1 with
          lockHolder := fun p =>
            if p = req.path then some req.pid else os1.lockHolder p }
        match env.truncErr with
        | some e => some (.error (LockError.mkIoError (.os e)), os2)
        | none =>
          let os3 := setContent os2 req.path []
          match formatPid req.pid with
          | none => some (.error (LockError.mkIoError .fmt), os3)
          | some (buf, len) =>
            match writeLoop buf len env.writeSched [] 0 with
            | none => none
            | some (.error e, c) =>
                some (.error (LockError.mkIoError (.os e)),
                      setContent os3 req.path c)
            | some (.ok _, c) =>
                some (.ok ⟨⟨intAsU32 req.pid⟩, req.path⟩,
                      setContent os3 req.path c)

/-- File::open with create and write both false (the check path): a
missing file fails with ENOENT, else the oracle decides. -/
def openRead (os : OsState) (path : FsPath) (env : Env) : Except Nat Unit :=
  if os.files path = none then .error ENOENT
  else
    match env.openErr with
    | some e => .error e
    | none => .ok ()

/-- What the F_GETLK query of File::check reports for the path: 0 when
no conflicting lock exists (l_type comes back F_UNLCK), else the pid of
the holder. Modelled from the spec through the lock table. -/
def getlkPid (os : OsState) (path : FsPath) : Int :=
  match os.lockHolder path with
  | none => 0
  | some q => q

/-- Request::check of src/lib.rs run against the modelled OS: open
read-only without creating; a NotFound open error is the normal empty
result, any other open error is surfaced; then File::check (its oracle
errors surfaced) reports a pid, 0 meaning no lock and anything else the
holder. The state is returned unchanged on every branch. -/
def Request.checkRun (req : Request) (os : OsState) (env : Env) :
    Except Nat (Option PidfileVal) × OsState :=
  match openRead os req.path env with
  | .error e => if e = ENOENT then (.ok none, os) else (.error e, os)
  | .ok _ =>
    match env.checkErr with
    | some e => (.error e, os)
    | none =>
      let pid := getlkPid os req.path
      if pid = 0 then (.ok none, os)
      else (.ok (some ⟨intAsU32 pid⟩), os)

/-- Concrete state for witnesses: the empty filesystem. -/
def osEmpty : OsState :=
  { files := fun _ => none, lockHolder := fun _ => none, nextIno := 0 }

/-- Concrete state for witnesses: the path p is locked by pid 9. -/
def osHeld : OsState :=
  { files := fun _ => none,
    lockHolder := fun p => if p = "p" then some 9 else none,
    nextIno := 0 }

/-- Concrete environment for witnesses: no injected failure and one
write transferring up to 20 bytes. -/
def envIdeal : Env :=
  { openErr := none, lockErr := none, truncErr := none, checkErr := none,
    writeSched := [.ok 20] }

theorem firstNonEintr_not_eintr :
    ∀ (l : List SysRes) (r : SysRes), firstNonEintr l = some r → r.isEintr = false := by
  intro l
  induction l with
  | nil => intro r h; simp [firstNonEintr] at h
  | cons a rest ih =>
      intro r h
      by_cases ha : a.isEintr
      · rw [firstNonEintr, if_pos ha] at h
        exact ih r h
      · rw [firstNonEintr, if_neg ha] at h
        cases h
        simpa using ha

theorem any_gives_firstNonEintr :
    ∀ (l : List SysRes), (l.any fun r => !r.isEintr) = true →
      ∃ r, firstNonEintr l = some r := by
  intro l
  induction l with
  | nil => intro h; simp at h
  | cons a rest ih =>
      intro h
      by_cases ha : a.isEintr
      · rw [firstNonEintr, if_pos ha]
        apply ih
        simp only [List.any_cons, ha, Bool.not_true, Bool.false_or] at h
        exact h
      · exact ⟨a, by rw [firstNonEintr, if_neg ha]⟩

theorem checkLoop_eq_handle :
    ∀ (l : List SysRes) (r : SysRes), firstNonEintr l = some r →
      checkLoop l = handleRes r := by
  intro l
  induction l with
  | nil => intro r h; simp [firstNonEintr] at h
  | cons a rest ih =>
      intro r h
      match a with
      | .ok v =>
          rw [firstNonEintr, if_neg (by simp [SysRes.isEintr])] at h
          cases h
          rfl
      | .err e =>
          by_cases he : e = EINTR
          · subst he
            rw [firstNonEintr, if_pos (by simp [SysRes.isEintr])] at h
            rw [checkLoop, if_pos rfl]
            exact ih r h
          · rw [firstNonEintr, if_neg (by simp [SysRes.isEintr, he])] at h
            cases h
            rw [checkLoop, if_neg he]
            rfl

theorem nixCheckLoop_eq_first {α : Type} :
    ∀ (l : List (Except Nat α)) (r : Except Nat α), nixFirstNonEintr l = some r →
      nixCheckLoop l = r := by
  intro l
  induction l with
  | nil => intro r h; simp [nixFirstNonEintr] at h
  | cons a rest ih =>
      intro r h
      match a with
      | .ok v =>
          rw [nixFirstNonEintr, if_neg (by simp [nixIsEintr])] at h
          cases h
          rfl
      | .error e =>
          by_cases he : e = EINTR
          · subst he
            rw [nixFirstNonEintr, if_pos (by simp [nixIsEintr])] at h
            rw [nixCheckLoop, if_pos rfl]
            exact ih r h
          · rw [nixFirstNonEintr, if_neg (by simp [nixIsEintr, he])] at h
            cases h
            rw [nixCheckLoop, if_neg he]

theorem nixFirstNonEintr_not_eintr {α : Type} :
    ∀ (l : List (Except Nat α)) (r : Except Nat α),
      nixFirstNonEintr l = some r → nixIsEintr r = false := by
  intro l
  induction l with
  | nil => intro r h; simp [nixFirstNonEintr] at h
  | cons a rest ih =>
      intro r h
      by_cases ha : nixIsEintr a
      · rw [nixFirstNonEintr, if_pos ha] at h
        exact ih r h
      · rw [nixFirstNonEintr, if_neg ha] at h
        cases h
        simpa using ha

theorem nix_any_gives_first {α : Type} :
    ∀ (l : List (Except Nat α)), (l.any fun r => !nixIsEintr r) = true →
      ∃ r, nixFirstNonEintr l = some r := by
  intro l
  induction l with
  | nil => intro h; simp at h
  | cons a rest ih =>
      intro h
      by_cases ha : nixIsEintr a
      · rw [nixFirstNonEintr, if_pos ha]
        apply ih
        simp only [List.any_cons, ha, Bool.not_true, Bool.false_or] at h
        exact h
      · exact ⟨a, by rw [nixFirstNonEintr, if_neg ha]⟩

/-- Claim C8: the retry combinators of src/file_posix.rs (the check and
nix_check macros, through which every syscall of open, lock, check,
truncate and write is routed) never surface EINTR: as soon as the
stream of raw outcomes holds one non-interrupt result, the loops return
the handling of the first such result, which is never the error EINTR. -/
theorem retry_loops_never_eintr (l : List SysRes) (l2 : List (Except Nat Nat))
    (h : (l.any fun r => !r.isEintr) = true)
    (h2 : (l2.any fun r => !nixIsEintr r) = true) :
    checkLoop l ≠ .error EINTR ∧ nixCheckLoop l2 ≠ .error EINTR
    ∧ (∀ r, firstNonEintr l = some r → checkLoop l = handleRes r)
    ∧ (∀ r, nixFirstNonEintr l2 = some r → nixCheckLoop l2 = r) := by
  obtain ⟨r, hr⟩ := any_gives_firstNonEintr l h
  obtain ⟨r2, hr2⟩ := nix_any_gives_first l2 h2
  refine ⟨?_, ?_, fun s hs => checkLoop_eq_handle l s hs,
    fun s hs => nixCheckLoop_eq_first l2 s hs⟩
  · rw [checkLoop_eq_handle l r hr]
    have hne := firstNonEintr_not_eintr l r hr
    match r with
    | .ok v => simp [handleRes]
    | .err e =>
        simp only [SysRes.isEintr, beq_eq_false_iff_ne, ne_eq] at hne
        simp [handleRes, hne]
  · rw [nixCheckLoop_eq_first l2 r2 hr2]
    have hne := nixFirstNonEintr_not_eintr l2 r2 hr2
    match r2 with
    | .ok v => simp
    | .error e =>
        simp only [nixIsEintr, beq_eq_false_iff_ne, ne_eq] at hne
        simp [hne]

/-- Witness for retry_loops_never_eintr at a concrete stream: two EINTR
failures, then a success. -/
theorem retry_loops_never_eintr_witness :
    ((([SysRes.err 4, SysRes.err 4, SysRes.ok 0] : List SysRes).any
        fun r => !r.isEintr) = true)
    ∧ ((([Except.error 4, Except.ok 3] : List (Except Nat Nat)).any
        fun r => !nixIsEintr r) = true)
    ∧ checkLoop [SysRes.err 4, SysRes.err 4, SysRes.ok 0] ≠ .error EINTR := by
  refine ⟨by decide, by decide, ?_⟩
  exact (retry_loops_never_eintr [SysRes.err 4, SysRes.err 4, SysRes.ok 0]
    [Except.error 4, Except.ok 3] (by decide) (by decide)).1

theorem lockPosix_eq_first :
    ∀ (raws : List SysRes), (raws.all okImpliesZero) = true →
      ∀ r : SysRes, firstNonEintr raws = some r →
      lockPosix raws = lockOutcomeOf r := by
  intro raws
  induction raws with
  | nil => intro _ r h; simp [firstNonEintr] at h
  | cons a rest ih =>
      intro hall r h
      have htail : (rest.all okImpliesZero) = true := by
        simp only [List.all_cons, Bool.and_eq_true] at hall
        exact hall.2
      match a with
      | .ok v =>
          have hv : v = 0 := by
            simp only [List.all_cons, Bool.and_eq_true, okImpliesZero,
              beq_iff_eq] at hall
            exact hall.1
          rw [firstNonEintr, if_neg (by simp [SysRes.isEintr])] at h
          cases h
          subst hv
          simp [lockPosix, checkLoop, setlk, lockOutcomeOf]
      | .err e =>
          by_cases he : e = EINTR
          · subst he
            rw [firstNonEintr, if_pos (by simp [SysRes.isEintr])] at h
            have hstep : lockPosix (SysRes.err EINTR :: rest) = lockPosix rest := by
              simp [lockPosix, checkLoop, setlk, EINTR, EACCES, EAGAIN]
            rw [hstep]
            exact ih htail r h
          · rw [firstNonEintr, if_neg (by simp [SysRes.isEintr, he])] at h
            cases h
            rw [lockOutcomeOf]
            by_cases hb : e = EACCES ∨ e = EAGAIN
            · rw [if_pos hb]
              rcases hb with hb | hb <;> subst hb <;>
                simp [lockPosix, checkLoop, setlk, EACCES, EAGAIN]
            · rw [if_neg hb]
              push_neg at hb
              simp [lockPosix, checkLoop, setlk, hb.1, hb.2, he]

/-- Claim C4: File::lock issues the non-blocking exclusive whole-file
set-lock request (a zeroed flock with l_type set to F_WRLCK, hence
l_start 0 and l_len 0 covering the whole file, issued with the
non-blocking command F_SETLK) and, over any raw fcntl outcome stream
whose successes return 0, it returns true exactly when the lock was
granted, false exactly when the request failed with EACCES or EAGAIN,
the errno as a typed error on every other failure, and never the EINTR
error. -/
theorem file_lock_trichotomy (raws : List SysRes)
    (hok : (raws.all okImpliesZero) = true)
    (r : SysRes) (hfe : firstNonEintr raws = some r) :
    lockPosix raws = lockOutcomeOf r
    ∧ lockPosix raws ≠ Except.error EINTR
    ∧ lockFlockReq.l_type = F_WRLCK ∧ lockFlockReq.l_start = 0
    ∧ lockFlockReq.l_len = 0 ∧ lockCmd = F_SETLK := by
  have heq := lockPosix_eq_first raws hok r hfe
  have hne := firstNonEintr_not_eintr raws r hfe
  refine ⟨heq, ?_, rfl, rfl, rfl, rfl⟩
  rw [heq]
  match r with
  | .ok v => simp [lockOutcomeOf]
  | .err e =>
      simp only [SysRes.isEintr, beq_eq_false_iff_ne, ne_eq] at hne
      rw [lockOutcomeOf]
      by_cases hb : e = EACCES ∨ e = EAGAIN
      · rw [if_pos hb]
        simp
      · rw [if_neg hb]
        simp [hne]

/-- Witness for file_lock_trichotomy: one EINTR then a busy EAGAIN result
gives the denied outcome false. -/
theorem file_lock_trichotomy_witness :
    (([SysRes.err 4, SysRes.err 35] : List SysRes).all okImpliesZero) = true
    ∧ firstNonEintr [SysRes.err 4, SysRes.err 35] = some (SysRes.err 35)
    ∧ lockPosix [SysRes.err 4, SysRes.err 35] = Except.ok false := by
  refine ⟨by decide, by decide, ?_⟩
  have h := (file_lock_trichotomy [SysRes.err 4, SysRes.err 35] (by decide)
    (SysRes.err 35) (by decide)).1
  rw [h]
  rfl

theorem natDigitsAux_length_le :
    ∀ (k : Nat), 0 < k → ∀ (fuel n : Nat), n < fuel → n < 10 ^ k →
      (natDigitsAux fuel n).length ≤ k := by
  intro k
  induction k with
  | zero => intro h0 _ _ _ _; exact absurd h0 (by omega)
  | succ k ih =>
      intro _ fuel n hf hn
      match fuel with
      | 0 => exact absurd hf (by omega)
      | f + 1 =>
          rw [natDigitsAux]
          by_cases h : n < 10
          · rw [if_pos h]
            simp
          · rw [if_neg h]
            have hk : 0 < k := by
              by_contra hk0
              have hz : k = 0 := by omega
              subst hz
              rw [pow_one] at hn
              omega
            have hdiv : n / 10 < 10 ^ k := by
              rw [Nat.div_lt_iff_lt_mul (by omega)]
              rw [pow_succ] at hn
              exact hn
            have hfuel : n / 10 < f := by omega
            have := ih hk f (n / 10) hfuel hdiv
            simp only [List.length_append, List.length_cons, List.length_nil]
            omega

theorem natDigits_length_le (k n : Nat) (hk : 0 < k) (hn : n < 10 ^ k) :
    (natDigits n).length ≤ k :=
  natDigitsAux_length_le k hk (n + 1) n (by omega) hn

/-- Claim C10: for every pid in the range of pid_t (a 32-bit signed
integer), the decimal rendering followed by the newline occupies at
most 20 bytes, so the formatting into the fixed 20-byte stack buffer of
File::write succeeds and the formatting-error branch is unreachable. -/
theorem pid_line_fits_buffer (p : Int)
    (h1 : -2147483648 ≤ p) (h2 : p < 2147483648) :
    (pidLine p).length ≤ BUF_LEN ∧ (formatPid p).isSome = true := by
  have habs : p.natAbs < 10 ^ 10 := by
    have hb : p.natAbs ≤ 2147483648 := by omega
    omega
  have hd : (natDigits p.natAbs).length ≤ 10 :=
    natDigits_length_le 10 _ (by omega) habs
  have hlen : (pidLine p).length ≤ BUF_LEN := by
    rw [pidLine, renderPid]
    by_cases hp : p < 0
    · rw [if_pos hp]
      simp only [List.length_append, List.length_cons, List.length_nil, BUF_LEN]
      omega
    · rw [if_neg hp]
      simp only [List.length_append, List.length_cons, List.length_nil, BUF_LEN]
      omega
  refine ⟨hlen, ?_⟩
  simp [formatPid, hlen]

/-- Witness for pid_line_fits_buffer at the pid -1. -/
theorem pid_line_fits_buffer_witness :
    (-2147483648 ≤ (-1 : Int)) ∧ ((-1 : Int) < 2147483648)
    ∧ (pidLine (-1)).length ≤ BUF_LEN ∧ (formatPid (-1)).isSome = true := by
  refine ⟨by decide, by decide, ?_, ?_⟩
  · exact (pid_line_fits_buffer (-1) (by decide) (by decide)).1
  · exact (pid_line_fits_buffer (-1) (by decide) (by decide)).2

/-- Claim C5, counterexample: two resolved snapshots with equal inode
numbers but different device ids make ensureCurrent report success,
although the claim as stated requires agreement on both the device id
and the inode number for success. -/
theorem ensureCurrent_ignores_device_counterexample :
    ensureCurrent (Except.ok ⟨1, 5⟩) (Except.ok ⟨2, 5⟩) (some 42) = Except.ok ()
    ∧ (FileStat.mk 1 5).st_dev ≠ (FileStat.mk 2 5).st_dev :=
  ⟨rfl, by decide⟩

/-- Claim C5 (amended): when both stats succeed, ensureCurrent succeeds
if and only if the two snapshots agree on the inode number alone (the
device id is never consulted), and an inode difference yields the
failure annotated with the best-effort read pid (none when that read
fails). -/
theorem ensureCurrent_inode_only (cur ps : FileStat) (rp : Option Nat) :
    (ensureCurrent (Except.ok cur) (Except.ok ps) rp = Except.ok () ↔
      cur.st_ino = ps.st_ino)
    ∧ (cur.st_ino ≠ ps.st_ino →
      ensureCurrent (Except.ok cur) (Except.ok ps) rp = Except.error rp) := by
  constructor
  · constructor
    · intro h
      by_contra hne
      simp [ensureCurrent, hne] at h
    · intro h
      simp [ensureCurrent, h]
  · intro hne
    simp [ensureCurrent, hne]

/-- Witness for ensureCurrent_inode_only: same device, inodes 1 and 2. -/
theorem ensureCurrent_inode_only_witness :
    ((FileStat.mk 7 1).st_ino ≠ (FileStat.mk 7 2).st_ino)
    ∧ ensureCurrent (Except.ok ⟨7, 1⟩) (Except.ok ⟨7, 2⟩) (some 9) =
        Except.error (some 9) :=
  ⟨by decide, (ensureCurrent_inode_only ⟨7, 1⟩ ⟨7, 2⟩ (some 9)).2 (by decide)⟩

/-- Claim C6, counterexample: the by-path stat fails while a pid (42) is
readable at the path; the code returns the failure with no pid
annotation, although the claim says the failure carries the readable
pid. -/
theorem ensureCurrent_pathStat_counterexample :
    ensureCurrent (Except.ok ⟨1, 5⟩) (Except.error ()) (some 42) =
      Except.error none
    ∧ (none : Option Nat) ≠ some 42 :=
  ⟨rfl, by decide⟩

/-- Claim C6 (amended): when ensureCurrent fails to re-resolve the path
by name, it returns the failure with no pid annotation, regardless of
what is currently readable at the former location of the path. -/
theorem ensureCurrent_pathStat_err_none (cur : FileStat) (rp : Option Nat) :
    ensureCurrent (Except.ok cur) (Except.error ()) rp = Except.error none :=
  rfl

/-- Claim C9, counterexample: no Request obtainable through the public
interface carries a permission mode other than 0o644 (the perm field is
private and the crate defines no method assigning it), refuting the
stated overridability. -/
theorem perm_no_override_counterexample :
    ¬ ∃ r : Request, PublicRequest r ∧ r.perm ≠ 0o644 := by
  rintro ⟨r, hr, hne⟩
  cases hr
  exact hne rfl

/-- Claim C9 (amended): the permission mode defaults to 0o644 in the
only public constructor, a file created by the acquire path receives
exactly that mode, and every publicly obtainable Request carries 0o644
(the public interface offers no override). -/
theorem perm_default_0644 (pid : Int) (path : FsPath) (r : Request)
    (h : PublicRequest r) :
    (Request.atPath pid path).perm = 0o644 ∧ r.perm = 0o644
    ∧ (∀ (os : OsState) (env : Env), env.openErr = none →
        os.files path = none →
        ∃ os1, openCreate os (Request.atPath pid path) env = Except.ok os1
          ∧ (os1.files path).map FsFile.mode = some 0o644) := by
  refine ⟨rfl, ?_, ?_⟩
  · cases h
    rfl
  · intro os env hopen habs
    refine ⟨{ os with
        files := fun p =>
          if p = path then some ⟨os.nextIno, (Request.atPath pid path).perm, []⟩
          else os.files p,
        nextIno := os.nextIno + 1 }, ?_, ?_⟩
    · rw [openCreate, hopen]
      show (match os.files path with
        | some _ => Except.ok os
        | none => Except.ok _) = Except.ok _
      rw [habs]
      rfl
    · simp [Request.atPath]

/-- Witness for perm_default_0644: the request built by the public
constructor at pid 1 and one concrete empty filesystem. -/
theorem perm_default_0644_witness :
    PublicRequest (Request.atPath 1 "p")
    ∧ (Request.atPath 1 "p").perm = 0o644 := by
  refine ⟨PublicRequest.mk_at 1 "p", ?_⟩
  exact (perm_default_0644 1 "p" (Request.atPath 1 "p")
    (PublicRequest.mk_at 1 "p")).1

theorem openCreate_lockHolder (os : OsState) (req : Request) (env : Env)
    (os1 : OsState) (h : openCreate os req env = .ok os1) :
    os1.lockHolder = os.lockHolder := by
  rw [openCreate] at h
  cases henv : env.openErr with
  | some e => rw [henv] at h; exact absurd h (by simp)
  | none =>
      rw [henv] at h
      cases hf : os.files req.path with
      | some f =>
          rw [hf] at h
          injection h with h1
          rw [← h1]
      | none =>
          rw [hf] at h
          injection h with h1
          rw [← h1]

theorem openCreate_file_present (os : OsState) (req : Request) (env : Env)
    (os1 : OsState) (h : openCreate os req env = .ok os1) :
    ∃ f, os1.files req.path = some f := by
  rw [openCreate] at h
  cases henv : env.openErr with
  | some e => rw [henv] at h; exact absurd h (by simp)
  | none =>
      rw [henv] at h
      cases hf : os.files req.path with
      | some f =>
          rw [hf] at h
          injection h with h1
          exact ⟨f, by rw [← h1]; exact hf⟩
      | none =>
          rw [hf] at h
          injection h with h1
          refine ⟨⟨os.nextIno, req.perm, []⟩, ?_⟩
          rw [← h1]
          simp

theorem setContent_files_self (os : OsState) (p : FsPath) (c : List Char) :
    (setContent os p c).files p =
      (os.files p).map (fun f => { f with content := c }) := by
  simp [setContent]

/-- Claim C1: while the advisory lock on a path is held by a live
holder, any further Request::lock against that path whose own open and
set-lock syscalls do not fail on unrelated grounds returns exactly the
conflict outcome, with the conflict flag set and no io error attached
(never a system-failure error, never a second successful Lock), and
leaves the holder unchanged. -/
theorem lock_while_held_conflicts (req : Request) (os : OsState) (env : Env)
    (q : Int) (hheld : os.lockHolder req.path = some q)
    (hopen : env.openErr = none) (hlock : env.lockErr = none) :
    ∃ os1, Request.lockRun req os env =
        some (Except.error LockError.mkConflict, os1)
      ∧ os1.lockHolder req.path = some q
      ∧ LockError.mkConflict.conflict = true
      ∧ LockError.mkConflict.ioErr = none := by
  obtain ⟨os1, h1, h2⟩ : ∃ os1, openCreate os req env = .ok os1
      ∧ os1.lockHolder = os.lockHolder := by
    rw [openCreate, hopen]
    cases hf : os.files req.path with
    | some f => exact ⟨os, rfl, rfl⟩
    | none => exact ⟨_, rfl, rfl⟩
  have hh : os1.lockHolder req.path = some q := by rw [h2]; exact hheld
  refine ⟨os1, ?_, hh, rfl, rfl⟩
  rw [Request.lockRun]
  simp only [h1, hlock, hh]

/-- Witness for lock_while_held_conflicts: pid 9 holds the lock on path
p and a request by pid 7 arrives in a failure-free environment. -/
theorem lock_while_held_conflicts_witness :
    osHeld.lockHolder "p" = some 9
    ∧ envIdeal.openErr = none ∧ envIdeal.lockErr = none
    ∧ ∃ os1, Request.lockRun (Request.atPath 7 "p") osHeld envIdeal =
        some (Except.error LockError.mkConflict, os1)
      ∧ os1.lockHolder "p" = some 9 := by
  refine ⟨rfl, rfl, rfl, ?_⟩
  obtain ⟨os1, ha, hb, -, -⟩ :=
    lock_while_held_conflicts (Request.atPath 7 "p") osHeld envIdeal 9
      rfl rfl rfl
  exact ⟨os1, ha, hb⟩

/-- Claim C7: Request::check never mutates the state (it neither creates
the file nor takes or alters any lock), returns the empty result when
the path has no file, surfaces any non-NotFound open error verbatim,
returns the empty result when the lock query reports pid 0, and returns
the reported pid when it is nonzero. -/
theorem check_reports_holder (req : Request) (os : OsState) (env : Env) :
    (Request.checkRun req os env).2 = os
    ∧ (os.files req.path = none →
        (Request.checkRun req os env).1 = Except.ok none)
    ∧ (∀ e, os.files req.path ≠ none → env.openErr = some e → e ≠ ENOENT →
        (Request.checkRun req os env).1 = Except.error e)
    ∧ (os.files req.path ≠ none → env.openErr = none → env.checkErr = none →
        getlkPid os req.path = 0 →
        (Request.checkRun req os env).1 = Except.ok none)
    ∧ (os.files req.path ≠ none → env.openErr = none → env.checkErr = none →
        getlkPid os req.path ≠ 0 →
        (Request.checkRun req os env).1 =
          Except.ok (some ⟨intAsU32 (getlkPid os req.path)⟩)) := by
  refine ⟨?_, ?_, ?_, ?_, ?_⟩
  · rw [Request.checkRun]
    rcases hor : openRead os req.path env with e | u
    · simp only
      split <;> rfl
    · simp only
      rcases hce : env.checkErr with _ | e
      · simp only
        split <;> rfl
      · rfl
  · intro hnone
    simp [Request.checkRun, openRead, hnone]
  · intro e hne hopen henoent
    simp [Request.checkRun, openRead, hne, hopen, henoent]
  · intro hne hopen hce hz
    simp [Request.checkRun, openRead, hne, hopen, hce, hz]
  · intro hne hopen hce hz
    simp [Request.checkRun, openRead, hne, hopen, hce, hz]

/-- Witness for check_reports_holder: checking an empty filesystem
reports no lock and an unchanged state. -/
theorem check_reports_holder_witness :
    osEmpty.files "p" = none
    ∧ (Request.checkRun (Request.atPath 7 "p") osEmpty envIdeal).1 =
        Except.ok none
    ∧ (Request.checkRun (Request.atPath 7 "p") osEmpty envIdeal).2 = osEmpty := by
  refine ⟨rfl, ?_, ?_⟩
  · exact (check_reports_holder (Request.atPath 7 "p") osEmpty envIdeal).2.1 rfl
  · exact (check_reports_holder (Request.atPath 7 "p") osEmpty envIdeal).1

theorem formatPid_take (p : Int) (buf : List Char) (len : Nat)
    (h : formatPid p = some (buf, len)) :
    buf.take len = pidLine p ∧ len = (pidLine p).length := by
  simp only [formatPid] at h
  by_cases hle : (pidLine p).length ≤ BUF_LEN
  · rw [if_pos hle] at h
    simp only [Option.some.injEq, Prod.mk.injEq] at h
    obtain ⟨hbuf, hlen⟩ := h
    subst hlen
    rw [← hbuf, List.take_left]
    exact ⟨rfl, rfl⟩
  · rw [if_neg hle] at h
    exact absurd h (by simp)

theorem writeLoop_ok (buf : List Char) (len : Nat) :
    ∀ (sched : List (Except Nat Nat)) (pos : Nat) (c : List Char),
      pos ≤ len →
      writeLoop buf len sched (buf.take pos) pos = some (.ok (), c) →
      c = buf.take len := by
  intro sched
  induction sched with
  | nil =>
      intro pos c hle h
      rw [writeLoop] at h
      by_cases hlp : len ≤ pos
      · rw [if_pos hlp] at h
        simp only [Option.some.injEq, Prod.mk.injEq, true_and] at h
        rw [← h, Nat.le_antisymm hle hlp]
      · rw [if_neg hlp] at h
        exact absurd h (by simp)
  | cons s rest ih =>
      intro pos c hle h
      rw [writeLoop.eq_def] at h
      dsimp only at h
      by_cases hlp : len ≤ pos
      · rw [if_pos hlp] at h
        simp only [Option.some.injEq, Prod.mk.injEq, true_and] at h
        rw [← h, Nat.le_antisymm hle hlp]
      · rw [if_neg hlp] at h
        cases s with
        | error e =>
            dsimp only at h
            exact absurd h (by simp)
        | ok n =>
            dsimp only at h
            have harg : buf.take pos ++ (buf.drop pos).take (min n (len - pos))
                = buf.take (pos + min n (len - pos)) :=
              (List.take_add buf pos (min n (len - pos))).symm
            rw [harg] at h
            exact ih (pos + min n (len - pos)) c (by omega) h

theorem writeLoop_progress (buf : List Char) (len : Nat) :
    ∀ (sched : List (Except Nat Nat)) (content : List Char) (pos : Nat),
      (sched.all isPosOk) = true → len ≤ pos + sched.length →
      ∃ c, writeLoop buf len sched content pos = some (.ok (), c) := by
  intro sched
  induction sched with
  | nil =>
      intro content pos _ hlen
      refine ⟨content, ?_⟩
      rw [writeLoop, if_pos (by simpa using hlen)]
  | cons s rest ih =>
      intro content pos hall hlen
      by_cases hlp : len ≤ pos
      · refine ⟨content, ?_⟩
        rw [writeLoop.eq_def]
        dsimp only
        rw [if_pos hlp]
      · match s with
        | .error e => simp [isPosOk] at hall
        | .ok n =>
            have h1 : 1 ≤ n := by
              simp only [List.all_cons, Bool.and_eq_true, isPosOk,
                decide_eq_true_eq] at hall
              exact hall.1
            have htail : (rest.all isPosOk) = true := by
              simp only [List.all_cons, Bool.and_eq_true] at hall
              exact hall.2
            have hbound : len ≤ (pos + min n (len - pos)) + rest.length := by
              simp only [List.length_cons] at hlen
              omega
            obtain ⟨c, hc⟩ :=
              ih (content ++ (buf.drop pos).take (min n (len - pos)))
                (pos + min n (len - pos)) htail hbound
            refine ⟨c, ?_⟩
            rw [writeLoop.eq_def]
            dsimp only
            rw [if_neg hlp]
            exact hc

/-- Claim C2: whenever Request::lock returns a successful Lock, the file
at the target path holds exactly the decimal rendering of the pid
captured at request creation followed by one newline and no other
bytes, for every partial-write schedule the OS produces; moreover the
write loop keeps issuing writes for the remaining bytes, so any
schedule whose writes each transfer at least one byte and which lasts
long enough completes the transfer. -/
theorem lock_success_writes_exact_pidline (req : Request) (os : OsState)
    (env : Env) (l : Lock) (os1 : OsState)
    (h : Request.lockRun req os env = some (Except.ok l, os1)) :
    (∃ f, os1.files req.path = some f ∧ f.content = pidLine req.pid)
    ∧ l.pidfile.pid = intAsU32 req.pid ∧ l.path = req.path
    ∧ ∀ (buf : List Char) (len : Nat) (sched : List (Except Nat Nat))
        (content : List Char) (pos : Nat),
        (sched.all isPosOk) = true → len ≤ pos + sched.length →
        ∃ c, writeLoop buf len sched content pos = some (Except.ok (), c) := by
  rw [Request.lockRun] at h
  rcases hoc : openCreate os req env with e | os1'
  · simp [hoc] at h
  simp only [hoc] at h
  rcases hle : env.lockErr with _ | e
  swap
  · simp [hle] at h
  simp only [hle] at h
  rcases hold : os1'.lockHolder req.path with _ | q
  swap
  · simp [hold] at h
  simp only [hold] at h
  rcases htr : env.truncErr with _ | e
  swap
  · simp [htr] at h
  simp only [htr] at h
  rcases hfp : formatPid req.pid with _ | bl
  · simp [hfp] at h
  obtain ⟨buf, len⟩ := bl
  simp only [hfp] at h
  rcases hwl : writeLoop buf len env.writeSched [] 0 with _ | rc
  · simp [hwl] at h
  obtain ⟨rr, c⟩ := rc
  rcases rr with e | u
  · simp [hwl] at h
  simp only [hwl] at h
  simp only [Option.some.injEq, Prod.mk.injEq, Except.ok.injEq] at h
  obtain ⟨hl, hos⟩ := h
  obtain ⟨hbt, -⟩ := formatPid_take req.pid buf len hfp
  cases u
  have hc : c = buf.take len :=
    writeLoop_ok buf len env.writeSched 0 c (Nat.zero_le len) hwl
  have hcp : c = pidLine req.pid := by rw [hc, hbt]
  obtain ⟨f0, hf0⟩ := openCreate_file_present os req env os1' hoc
  refine ⟨?_, by rw [← hl], by rw [← hl], ?_⟩
  · refine ⟨{ f0 with content := pidLine req.pid }, ?_, rfl⟩
    rw [← hos, ← hcp]
    simp only [setContent_files_self]
    have : ({ os1' with lockHolder := fun p =>
        if p = req.path then some req.pid
        else os1'.lockHolder p : OsState }).files req.path = some f0 := hf0
    rw [this]
    rfl
  · intro buf' len' sched content pos hall hlen
    exact writeLoop_progress buf' len' sched content pos hall hlen

/-- Witness for lock_success_writes_exact_pidline: pid 7 acquires on the
empty filesystem with one full write. -/
theorem lock_success_writes_exact_pidline_witness :
    ∃ l os1, Request.lockRun (Request.atPath 7 "p") osEmpty envIdeal =
        some (Except.ok l, os1)
      ∧ (∃ f, os1.files "p" = some f ∧ f.content = pidLine 7)
      ∧ l.pidfile.pid = intAsU32 7 := by
  obtain ⟨l, os1, hrun⟩ : ∃ l os1,
      Request.lockRun (Request.atPath 7 "p") osEmpty envIdeal =
        some (Except.ok l, os1) := ⟨_, _, rfl⟩
  obtain ⟨hf, hp, -, -⟩ :=
    lock_success_writes_exact_pidline (Request.atPath 7 "p") osEmpty envIdeal
      l os1 hrun
  exact ⟨l, os1, hrun, hf, hp⟩

/-- Claim C3: every failed Request::lock produces exactly one of the two
shapes: the conflict outcome (conflict flag set, no io error, and a
live holder existed on the path) or the system-failure outcome
(conflict flag unset, an io error present); never both markers and
never neither. -/
theorem lock_failure_shapes (req : Request) (os : OsState) (env : Env)
    (le : LockError) (os1 : OsState)
    (h : Request.lockRun req os env = some (Except.error le, os1)) :
    (le.conflict = true ∧ le.ioErr = none ∧ ∃ q, os.lockHolder req.path = some q)
    ∨ (le.conflict = false ∧ ∃ ioe, le.ioErr = some ioe) := by
  rw [Request.lockRun] at h
  rcases hoc : openCreate os req env with e | os1'
  · simp only [hoc, Option.some.injEq, Prod.mk.injEq, Except.error.injEq] at h
    right
    rw [← h.1]
    exact ⟨rfl, ⟨.os e, rfl⟩⟩
  simp only [hoc] at h
  rcases hle : env.lockErr with _ | e
  swap
  · simp only [hle, Option.some.injEq, Prod.mk.injEq, Except.error.injEq] at h
    right
    rw [← h.1]
    exact ⟨rfl, ⟨.os e, rfl⟩⟩
  simp only [hle] at h
  rcases hold : os1'.lockHolder req.path with _ | q
  swap
  · simp only [hold, Option.some.injEq, Prod.mk.injEq, Except.error.injEq] at h
    left
    rw [← h.1]
    refine ⟨rfl, rfl, ⟨q, ?_⟩⟩
    rw [← openCreate_lockHolder os req env os1' hoc]
    exact hold
  simp only [hold] at h
  rcases htr : env.truncErr with _ | e
  swap
  · simp only [htr, Option.some.injEq, Prod.mk.injEq, Except.error.injEq] at h
    right
    rw [← h.1]
    exact ⟨rfl, ⟨.os e, rfl⟩⟩
  simp only [htr] at h
  rcases hfp : formatPid req.pid with _ | bl
  · simp only [hfp, Option.some.injEq, Prod.mk.injEq, Except.error.injEq] at h
    right
    rw [← h.1]
    exact ⟨rfl, ⟨.fmt, rfl⟩⟩
  obtain ⟨buf, len⟩ := bl
  simp only [hfp] at h
  rcases hwl : writeLoop buf len env.writeSched [] 0 with _ | rc
  · simp [hwl] at h
  obtain ⟨rr, c⟩ := rc
  rcases rr with e | u
  · simp only [hwl, Option.some.injEq, Prod.mk.injEq, Except.error.injEq] at h
    right
    rw [← h.1]
    exact ⟨rfl, ⟨.os e, rfl⟩⟩
  · simp [hwl] at h

/-- Witness for lock_failure_shapes: an open failing with errno 13 gives
the system-failure shape. -/
theorem lock_failure_shapes_witness :
    ∃ le os1, Request.lockRun (Request.atPath 7 "p") osEmpty
        { openErr := some 13, lockErr := none, truncErr := none,
          checkErr := none, writeSched := [] } =
        some (Except.error le, os1)
      ∧ ((le.conflict = true ∧ le.ioErr = none
            ∧ ∃ q, osEmpty.lockHolder "p" = some q)
        ∨ (le.conflict = false ∧ ∃ ioe, le.ioErr = some ioe)) := by
  obtain ⟨le, os1, hrun⟩ : ∃ le os1,
      Request.lockRun (Request.atPath 7 "p") osEmpty
        { openErr := some 13, lockErr := none, truncErr := none,
          checkErr := none, writeSched := [] } =
        some (Except.error le, os1) := ⟨_, _, rfl⟩
  exact ⟨le, os1, hrun,
    lock_failure_shapes (Request.atPath 7 "p") osEmpty _ le os1 hrun⟩

end Pidfile
